import Mathlib

/-!
Verification development for the URL-shortener backend
(`labs/lab01-vibe-coding-intro/backend`: `cache.py` and `main.py`).

The Python code is shallowly embedded as executable Lean definitions:

* `URLCache` embeds `cache.py`'s `URLCache`, whose storage is a
  `cachetools.LRUCache` (entry count bounded by `maxsize`; a read through
  `__getitem__` and every write promote the key to most-recently-used; a
  write of a new key at capacity evicts the least-recently-used entry).
  The entry list is kept most-recently-used first, so the last entry is
  the eviction victim.  Values have type `Option String`, mirroring the
  `Optional[str]` value type of `URLCache.set`.  (`cachetools` raises
  `ValueError` on insertion when `maxsize = 0`; the theorems below that
  depend on capacity therefore assume `1 ≤ maxsize`.)
* `Store` models the `urls` table of the SQLite database as an
  association list from short code to original URL (`short_code` is
  UNIQUE, `original_url` is NOT NULL).
* `get_original_url`, `redirect_resolve`, `shorten_commit`,
  `check_rate_limit`, `generate_short_code` and `validate_custom_code`
  embed the correspondingly named logic of `main.py`.  Functions that
  talk to the database additionally return the number of database
  queries the call performed, so that negative-caching claims about
  "no further store query" are statable.

Strings are modelled over their ASCII fragment: Python's `str.isalnum`
and `str.lower` are Unicode-aware, the embedded `pyIsAlnum` / `pyLower`
implement their behaviour on ASCII characters, which covers the
alphabets the program itself manipulates.
-/

/-- First value bound to key `k` in an association list (Python `dict`
lookup; keys are unique in every reachable state). -/
def assocFind {α : Type} (k : String) : List (String × α) → Option α
  | [] => none
  | (k', v) :: rest => if k' = k then some v else assocFind k rest

/-- Remove every binding of key `k` (Python `dict.pop(k, None)` /
`del d[k]`; on unique-key lists this removes at most one entry). -/
def assocErase {α : Type} (k : String) : List (String × α) → List (String × α)
  | [] => []
  | (k', v) :: rest => if k' = k then assocErase k rest else (k', v) :: assocErase k rest

/-- Embedding of `cache.py`'s `URLCache`: a `cachetools.LRUCache` plus
hit/miss counters.  `entries` is ordered most-recently-used first, so
`entries.getLast` is the least-recently-used entry, the one
`cachetools` evicts. -/
structure URLCache where
  entries : List (String × Option String)
  maxsize : Nat
  hits : Nat
  misses : Nat
  deriving Repr, DecidableEq

/-- `URLCache.__init__(max_size)`: empty cache, zero counters. -/
def URLCache.empty (maxSize : Nat) : URLCache :=
  { entries := [], maxsize := maxSize, hits := 0, misses := 0 }

/-- Membership test `key in self.cache` (does not touch recency in
`cachetools`). -/
def URLCache.contains (c : URLCache) (k : String) : Bool :=
  (assocFind k c.entries).isSome

/-- `URLCache.get`: on a present key, increment `hits`, promote the key
to most-recently-used (the `self.cache[key]` read moves it to the front)
and return the stored value; on an absent key, increment `misses` and
return `None`.  Note the collapse faithful to the Python signature
`get(key) -> Optional[str]`: the stored value itself has type
`Option String`, and an absent key also yields `none`. -/
def URLCache.get (c : URLCache) (k : String) : Option String × URLCache :=
  match assocFind k c.entries with
  | some v => (v, { c with entries := (k, v) :: assocErase k c.entries, hits := c.hits + 1 })
  | none => (none, { c with misses := c.misses + 1 })

/-- `URLCache.set`: `self.cache[key] = value` on the `LRUCache`.
Updating an existing key overwrites its value and promotes it; a new
key is inserted most-recently-used, evicting the least-recently-used
entry when the cache is at capacity. -/
def URLCache.set (c : URLCache) (k : String) (v : Option String) : URLCache :=
  match assocFind k c.entries with
  | some _ => { c with entries := (k, v) :: assocErase k c.entries }
  | none =>
    let base := if c.maxsize ≤ c.entries.length then c.entries.dropLast else c.entries
    { c with entries := (k, v) :: base }

/-- `URLCache.invalidate`: `self.cache.pop(key, None)`; counters are
untouched. -/
def URLCache.invalidate (c : URLCache) (k : String) : URLCache :=
  { c with entries := assocErase k c.entries }

/-- `URLCache.clear`: remove all entries and reset both counters. -/
def URLCache.clear (c : URLCache) : URLCache :=
  { c with entries := [], hits := 0, misses := 0 }

/-- `URLCache.size`: `len(self.cache)`. -/
def URLCache.size (c : URLCache) : Nat :=
  c.entries.length

/-- One client-visible cache operation, for stating properties over
arbitrary `Get`/`Set` sequences. -/
inductive CacheOp where
  | get (k : String)
  | set (k : String) (v : Option String)
  deriving Repr, DecidableEq

/-- Apply one `CacheOp` to the cache (the value a `get` returns is
dropped; only the state evolution matters for the invariants). -/
def URLCache.step (c : URLCache) : CacheOp → URLCache
  | .get k => (c.get k).2
  | .set k v => c.set k v

/-- Run a sequence of cache operations left to right. -/
def URLCache.runOps (ops : List CacheOp) (c : URLCache) : URLCache :=
  ops.foldl URLCache.step c

/-- The `urls` table, restricted to what the resolution paths read:
`short_code ↦ original_url`. -/
abbrev Store := List (String × String)

/-- The negative-caching sentinel of `main.py`. -/
def NOT_FOUND : String := "__NOT_FOUND__"

/-- Embedding of `main.py`'s `get_original_url` (lines 225-247): check
the cache; a cached `"__NOT_FOUND__"` reports not-found without a
database query, a cached real value is returned directly; on a cache
miss query the database once and cache either the found URL or the
sentinel.  The third component counts the database queries this call
performed (0 or 1). -/
def get_original_url (cache : URLCache) (store : Store) (code : String) :
    Option String × URLCache × Nat :=
  match cache.get code with
  | (some u, c1) => (if u = NOT_FOUND then none else some u, c1, 0)
  | (none, c1) =>
    match assocFind code store with
    | some url => (some url, c1.set code (some url), 1)
    | none => (none, c1.set code (some NOT_FOUND), 1)

/-- Iterate `get_original_url` `n` times against a fixed store,
threading the cache and accumulating the database query count; the
first component is the result of the last call (`none` when `n = 0`). -/
def resolve_iter (cache : URLCache) (store : Store) (code : String) :
    Nat → Option String × URLCache × Nat
  | 0 => (none, cache, 0)
  | n + 1 =>
    let r := get_original_url cache store code
    let rest := resolve_iter r.2.1 store code n
    (if n = 0 then r.1 else rest.1, rest.2.1, r.2.2 + rest.2.2)

/-- Embedding of the lookup performed by `main.py`'s `redirect_url`
endpoint (lines 510-544): it opens a database connection and queries the
`urls` row directly — the cache is neither consulted nor populated, and
is returned unchanged.  (The row's `expires_at` and the click recording
do not affect which URL, if any, is resolved; rows here are the
`expires_at IS NULL` case, for which `is_expired` is `False`.)  The
third component counts database queries. -/
def redirect_resolve (cache : URLCache) (store : Store) (code : String) :
    Option String × URLCache × Nat :=
  (assocFind code store, cache, 1)

/-- Embedding of the commit step of `main.py`'s `shorten_url` (lines
482-499): `INSERT` the new mapping (the UNIQUE constraint on
`short_code` raises `IntegrityError` when the code already exists, in
which case the handler aborts with HTTP 500 and the cache is not
touched — the `none` branch), then `cache.invalidate(short_code)`. -/
def shorten_commit (cache : URLCache) (store : Store) (code url : String) :
    Option (URLCache × Store) :=
  match assocFind code store with
  | some _ => none
  | none => some (cache.invalidate code, (code, url) :: store)

/-- Embedding of `main.py`'s `check_rate_limit` (lines 47-65),
parametrised by the environment-configured `RATE_LIMIT_REQUESTS`
(`limit`) and `RATE_LIMIT_WINDOW` (`window`); time is exact (`ℚ`).
Keep the timestamps `t` with `now - t < window`; if at least `limit`
remain, reject and report `retry_after = int(window - (now - kept[0])) + 1`
(`int` truncation is `Int.floor` here since every kept timestamp makes
the operand positive); otherwise admit and append `now`.  The `[]`
inner branch is unreachable for `1 ≤ limit` (Python would raise
`IndexError` there for `limit = 0`). -/
def check_rate_limit (limit window : Nat) (now : ℚ) (times : List ℚ) :
    (Bool × Option ℤ) × List ℚ :=
  let kept := times.filter (fun t => now - t < (window : ℚ))
  if limit ≤ kept.length then
    match kept with
    | [] => ((false, none), kept)
    | oldest :: _ => ((false, some (⌊(window : ℚ) - (now - oldest)⌋ + 1)), kept)
  else ((true, none), kept ++ [now])

/-- Modelled from the words of claim C3 (and spec §4.2), for comparison
with `check_rate_limit`: identical except that it drops only timestamps
strictly older than `now - window` (keeps `t` with `now - window ≤ t`),
where the code keeps only `t` with `now - t < window`. -/
def check_rate_limit_claim (limit window : Nat) (now : ℚ) (times : List ℚ) :
    (Bool × Option ℤ) × List ℚ :=
  let kept := times.filter (fun t => now - (window : ℚ) ≤ t)
  if limit ≤ kept.length then
    match kept with
    | [] => ((false, none), kept)
    | oldest :: _ => ((false, some (⌊(window : ℚ) - (now - oldest)⌋ + 1)), kept)
  else ((true, none), kept ++ [now])

/-- Python's `string.ascii_letters + string.digits`: the 62-symbol
alphabet of generated codes. -/
def characters : List Char :=
  ("abcdefghijklmnopqrstuvwxyzABCDEFGHIJKLMNOPQRSTUVWXYZ0123456789" : String).data

/-- The alphabet character at a draw index. -/
def charOf (i : Fin 62) : Char :=
  characters.get (Fin.cast (by decide) i)

/-- One candidate of `generate_short_code`:
`"".join(random.choices(characters, k=SHORT_CODE_LENGTH))` with
`SHORT_CODE_LENGTH = 6`, the six random draws given as `d`. -/
def drawCode (d : Fin 6 → Fin 62) : String :=
  String.mk ((List.finRange 6).map fun j => charOf (d j))

/-- The `while True` loop of `main.py`'s `generate_short_code` (lines
205-212), unrolled attempt by attempt: `draws i` is the randomness of
attempt `i`, `code_exists` is the database existence check, and `fuel`
bounds how many iterations we observe — `none` means the loop has not
returned within `fuel` iterations.  The source tracks no retry count
and has no error exit: every iteration either returns a free code or
loops. -/
def gen_aux (code_exists : String → Bool) (draws : Nat → Fin 6 → Fin 62) :
    Nat → Nat → Option String
  | _, 0 => none
  | i, fuel + 1 =>
    let code := drawCode (draws i)
    if code_exists code then gen_aux code_exists draws (i + 1) fuel else some code

/-- `generate_short_code`, observed for `fuel` loop iterations starting
at attempt 0. -/
def generate_short_code (code_exists : String → Bool) (draws : Nat → Fin 6 → Fin 62)
    (fuel : Nat) : Option String :=
  gen_aux code_exists draws 0 fuel

/-- Python `str.isalnum` on the ASCII fragment: `0-9`, `A-Z`, `a-z`. -/
def pyIsAlnumChar (c : Char) : Bool :=
  (48 ≤ c.toNat ∧ c.toNat ≤ 57) ∨ (65 ≤ c.toNat ∧ c.toNat ≤ 90) ∨
    (97 ≤ c.toNat ∧ c.toNat ≤ 122)

/-- Python `str.lower` on one ASCII character. -/
def pyLowerChar (c : Char) : Char :=
  if 65 ≤ c.toNat ∧ c.toNat ≤ 90 then Char.ofNat (c.toNat + 32) else c

/-- Python `str.lower` on the ASCII fragment. -/
def pyLower (s : String) : String :=
  String.mk (s.data.map pyLowerChar)

/-- The reserved words of `validate_custom_code`. -/
def reservedWords : List String :=
  ["api", "health", "shorten", "info", "analytics", "cache", "qrcode"]

/-- Embedding of `main.py`'s `validate_custom_code` field validator
(lines 84-97).  Note the guard `if v:`: a missing custom code — and
likewise the empty string, which is falsy — skips every check and is
returned as-is.  A provided truthy code is rejected (`ValueError`,
modelled as `Except.error`) when its length is outside 3-20, when it is
not alphanumeric (`str.isalnum`), or when its lower-casing is a
reserved word; otherwise it is returned unchanged.  (The Python error
messages are abbreviated to short tags.) -/
def validate_custom_code (v : Option String) : Except String (Option String) :=
  match v with
  | none => .ok none
  | some s =>
    if s = "" then .ok (some s)
    else if s.length < 3 ∨ 20 < s.length then .error "length"
    else if ¬ s.data.all pyIsAlnumChar then .error "alnum"
    else if pyLower s ∈ reservedWords then .error "reserved"
    else .ok (some s)

example : (check_rate_limit 3 60 60 [0, 0, 0]).1.1 = true := by
  norm_num [check_rate_limit, List.filter]
example : (check_rate_limit 3 60 1 [0, 0, 0]).1 = (false, some 60) := by
  norm_num [check_rate_limit, List.filter]
example : generate_short_code (fun _ => false) (fun _ _ => 0) 1 = some "aaaaaa" := by decide
example : validate_custom_code (some "") = .ok (some "") := rfl
example : validate_custom_code (some "API") = .error "reserved" := rfl
example : validate_custom_code (some "mycode123") = .ok (some "mycode123") := rfl
example : validate_custom_code (some "my-code") = .error "alnum" := rfl

/-! ### Association-list lemmas -/

theorem assocErase_eq_filter {α : Type} (k : String) (l : List (String × α)) :
    assocErase k l = l.filter (fun p => p.1 ≠ k) := by
  induction l with
  | nil => rfl
  | cons p rest ih =>
    obtain ⟨k', v⟩ := p
    by_cases h : k' = k <;> simp [assocErase, List.filter_cons, h, ih]

theorem assocFind_assocErase_self {α : Type} (k : String) (l : List (String × α)) :
    assocFind k (assocErase k l) = none := by
  induction l with
  | nil => rfl
  | cons p rest ih =>
    obtain ⟨k', v⟩ := p
    by_cases h : k' = k <;> simp [assocErase, assocFind, h, ih]

theorem assocFind_eq_none_iff {α : Type} (k : String) (l : List (String × α)) :
    assocFind k l = none ↔ k ∉ l.map Prod.fst := by
  induction l with
  | nil => simp [assocFind]
  | cons p rest ih =>
    obtain ⟨k', v⟩ := p
    simp only [assocFind, List.map_cons, List.mem_cons]
    by_cases h : k' = k
    · simp [h]
    · rw [if_neg h, ih]
      constructor
      · intro hn hm
        rcases hm with he | hm
        · exact h he.symm
        · exact hn hm
      · intro hn hm
        exact hn (Or.inr hm)

theorem length_assocErase_le {α : Type} (k : String) (l : List (String × α)) :
    (assocErase k l).length ≤ l.length := by
  rw [assocErase_eq_filter]
  exact l.length_filter_le _

theorem length_assocErase_lt {α : Type} (k : String) (l : List (String × α))
    (v : α) (h : assocFind k l = some v) : (assocErase k l).length < l.length := by
  induction l with
  | nil => simp [assocFind] at h
  | cons p rest ih =>
    obtain ⟨k', v'⟩ := p
    by_cases hk : k' = k
    · simp only [assocErase, if_pos hk, List.length_cons]
      exact Nat.lt_succ_of_le (length_assocErase_le k rest)
    · simp only [assocFind, if_neg hk] at h
      simp only [assocErase, if_neg hk, List.length_cons]
      exact Nat.succ_lt_succ (ih h)

theorem keys_assocErase {α : Type} (k : String) (l : List (String × α)) :
    (assocErase k l).map Prod.fst = (l.map Prod.fst).filter (fun x => x ≠ k) := by
  induction l with
  | nil => rfl
  | cons p rest ih =>
    obtain ⟨k', v⟩ := p
    by_cases h : k' = k <;> simp [assocErase, List.filter_cons, h, ih]

theorem not_mem_keys_assocErase {α : Type} (k : String) (l : List (String × α)) :
    k ∉ (assocErase k l).map Prod.fst := by
  rw [keys_assocErase]
  intro h
  have h2 := (List.mem_filter.mp h).2
  simp at h2

theorem nodup_keys_assocErase {α : Type} (k : String) (l : List (String × α))
    (h : (l.map Prod.fst).Nodup) : ((assocErase k l).map Prod.fst).Nodup := by
  rw [keys_assocErase]
  exact h.filter _

/-! ### Cache well-formedness -/

/-- Invariant of every reachable `URLCache` state (for a positive
capacity, the only case `cachetools` accepts writes in): the entry list
never exceeds `maxsize` and keys are unique. -/
def cacheWF (c : URLCache) : Prop :=
  1 ≤ c.maxsize ∧ c.entries.length ≤ c.maxsize ∧ (c.entries.map Prod.fst).Nodup

theorem cacheWF_empty (n : Nat) (hn : 1 ≤ n) : cacheWF (URLCache.empty n) := by
  refine ⟨hn, ?_, ?_⟩ <;> simp [URLCache.empty]

theorem cacheWF_get (c : URLCache) (k : String) (h : cacheWF c) :
    cacheWF (c.get k).2 := by
  obtain ⟨h1, h2, h3⟩ := h
  unfold URLCache.get
  cases hf : assocFind k c.entries with
  | none => exact ⟨h1, h2, h3⟩
  | some v =>
    refine ⟨h1, ?_, ?_⟩
    · rw [List.length_cons]
      exact Nat.le_trans (length_assocErase_lt k c.entries v hf) h2
    · rw [List.map_cons, List.nodup_cons]
      exact ⟨not_mem_keys_assocErase k c.entries, nodup_keys_assocErase k c.entries h3⟩

theorem cacheWF_set (c : URLCache) (k : String) (v : Option String) (h : cacheWF c) :
    cacheWF (c.set k v) := by
  obtain ⟨h1, h2, h3⟩ := h
  unfold URLCache.set
  cases hf : assocFind k c.entries with
  | some v' =>
    refine ⟨h1, ?_, ?_⟩
    · rw [List.length_cons]
      exact Nat.le_trans (length_assocErase_lt k c.entries v' hf) h2
    · rw [List.map_cons, List.nodup_cons]
      exact ⟨not_mem_keys_assocErase k c.entries, nodup_keys_assocErase k c.entries h3⟩
  | none =>
    have hk : k ∉ c.entries.map Prod.fst := (assocFind_eq_none_iff k c.entries).mp hf
    by_cases hcap : c.maxsize ≤ c.entries.length
    · have hlen : c.entries.length = c.maxsize := Nat.le_antisymm h2 hcap
      have hpos : c.entries ≠ [] := by
        intro he
        rw [he] at hlen
        simp at hlen
        omega
      refine ⟨h1, ?_, ?_⟩
      · simp only [if_pos hcap, List.length_cons]
        rw [List.length_dropLast]
        omega
      · simp only [if_pos hcap, List.map_cons, List.nodup_cons]
        have hsub : c.entries.dropLast.Sublist c.entries := List.dropLast_sublist _
        have hsubk : (c.entries.dropLast.map Prod.fst).Sublist (c.entries.map Prod.fst) :=
          hsub.map _
        exact ⟨fun hm => hk (hsubk.mem hm), h3.sublist hsubk⟩
    · refine ⟨h1, ?_, ?_⟩
      · simp only [if_neg hcap, List.length_cons]
        omega
      · simp only [if_neg hcap, List.map_cons, List.nodup_cons]
        exact ⟨hk, h3⟩

theorem cacheWF_step (c : URLCache) (op : CacheOp) (h : cacheWF c) :
    cacheWF (c.step op) := by
  cases op with
  | get k => exact cacheWF_get c k h
  | set k v => exact cacheWF_set c k v h

theorem cacheWF_runOps (ops : List CacheOp) (c : URLCache) (h : cacheWF c) :
    cacheWF (URLCache.runOps ops c) := by
  induction ops generalizing c with
  | nil => exact h
  | cons op rest ih => exact ih _ (cacheWF_step c op h)

theorem maxsize_step (c : URLCache) (op : CacheOp) : (c.step op).maxsize = c.maxsize := by
  cases op with
  | get k =>
    simp only [URLCache.step, URLCache.get]
    cases assocFind k c.entries <;> rfl
  | set k v =>
    simp only [URLCache.step, URLCache.set]
    cases assocFind k c.entries <;> rfl

theorem maxsize_runOps (ops : List CacheOp) (c : URLCache) :
    (URLCache.runOps ops c).maxsize = c.maxsize := by
  induction ops generalizing c with
  | nil => rfl
  | cons op rest ih => rw [URLCache.runOps, List.foldl_cons, ← URLCache.runOps, ih, maxsize_step]

theorem assocFind_set_self (c : URLCache) (k : String) (v : Option String) :
    assocFind k (c.set k v).entries = some v := by
  unfold URLCache.set
  cases assocFind k c.entries <;> simp [assocFind]

theorem set_head (c : URLCache) (k : String) (v : Option String) :
    (c.set k v).entries.head? = some (k, v) := by
  unfold URLCache.set
  cases assocFind k c.entries <;> rfl

theorem get_head (c : URLCache) (k : String) (v : Option String)
    (h : assocFind k c.entries = some v) : ((c.get k).2).entries.head? = some (k, v) := by
  unfold URLCache.get
  rw [h]
  rfl

theorem maxsize_set (c : URLCache) (k : String) (v : Option String) :
    (c.set k v).maxsize = c.maxsize := by
  unfold URLCache.set
  cases assocFind k c.entries <;> rfl

/-- Inserting a fresh key with the cache at capacity evicts exactly the
least-recently-used entry (the last one); the new key is present and
the size stays at capacity. -/
theorem set_evicts_lru (c : URLCache) (k : String) (v : Option String)
    (es : List (String × Option String)) (e : String × Option String)
    (hwf : cacheWF c) (hes : c.entries = es ++ [e])
    (hk : assocFind k c.entries = none) (hcap : c.entries.length = c.maxsize) :
    (c.set k v).contains e.1 = false ∧ (c.set k v).contains k = true ∧
      (c.set k v).size = c.maxsize := by
  obtain ⟨h1, h2, h3⟩ := hwf
  have hcap' : c.maxsize ≤ c.entries.length := Nat.le_of_eq hcap.symm
  have hdrop : c.entries.dropLast = es := by rw [hes]; exact List.dropLast_concat
  have hset : (c.set k v).entries = (k, v) :: es := by
    unfold URLCache.set
    rw [hk]
    simp only [if_pos hcap', hdrop]
  have hkk : k ∉ c.entries.map Prod.fst := (assocFind_eq_none_iff k c.entries).mp hk
  have hke : k ≠ e.1 := by
    intro he
    apply hkk
    rw [hes, List.map_append]
    exact List.mem_append_right _ (by simp [he])
  have he_es : e.1 ∉ es.map Prod.fst := by
    have := h3
    rw [hes, List.map_append, List.nodup_append] at this
    intro hm
    exact this.2.2 hm (by simp)
  refine ⟨?_, ?_, ?_⟩
  · simp only [URLCache.contains, hset, assocFind, if_neg hke]
    rw [(assocFind_eq_none_iff e.1 es).mpr he_es]
    rfl
  · simp [URLCache.contains, hset, assocFind]
  · simp only [URLCache.size, hset, List.length_cons]
    rw [← hcap, hes]
    simp

/-- Inserting a list of fresh, pairwise-distinct keys that fits within
the remaining capacity simply stacks them most-recently-used first. -/
theorem runOps_set_fresh (v : Option String) (ks : List String) (c : URLCache)
    (hfresh : ∀ k ∈ ks, assocFind k c.entries = none) (hnd : ks.Nodup)
    (hroom : c.entries.length + ks.length ≤ c.maxsize) :
    (URLCache.runOps (ks.map fun k => CacheOp.set k v) c).entries =
      (ks.map fun k => (k, v)).reverse ++ c.entries := by
  induction ks generalizing c with
  | nil => simp [URLCache.runOps]
  | cons k ks ih =>
    have hk : assocFind k c.entries = none := hfresh k (by simp)
    have hcap : ¬ c.maxsize ≤ c.entries.length := by
      simp only [List.length_cons] at hroom
      omega
    have hset : (c.set k v).entries = (k, v) :: c.entries := by
      unfold URLCache.set
      rw [hk]
      simp only [if_neg hcap]
    have hstep : URLCache.runOps ((k :: ks).map fun k => CacheOp.set k v) c =
        URLCache.runOps (ks.map fun k => CacheOp.set k v) (c.set k v) := by
      simp [URLCache.runOps, URLCache.step]
    rw [hstep, ih (c.set k v) ?_ hnd.of_cons ?_]
    · rw [hset]
      simp [List.append_assoc]
    · intro k' hk'
      have hne : k ≠ k' := by
        intro he
        rw [he] at hnd
        exact (List.nodup_cons.mp hnd).1 hk'
      rw [hset]
      simp only [assocFind, if_neg hne]
      exact hfresh k' (List.mem_cons_of_mem _ hk')
    · rw [maxsize_set, hset]
      simp only [List.length_cons]
      simp only [List.length_cons] at hroom
      omega

/-- Inserting `N + 1` pairwise-distinct keys into an empty capacity-`N`
cache evicts the first-inserted (least-recently-accessed) key. -/
theorem insert_succ_evicts (N : Nat) (hN : 1 ≤ N) (ks : List String) (v : Option String)
    (hnd : ks.Nodup) (hlen : ks.length = N + 1) (k0 : String) (h0 : ks.head? = some k0) :
    (URLCache.runOps (ks.map fun k => CacheOp.set k v) (URLCache.empty N)).contains k0
      = false := by
  cases ks with
  | nil => simp at h0
  | cons a t =>
    have ha : a = k0 := by simpa using h0
    subst ha
    have ht : t ≠ [] := by
      intro he
      rw [he] at hlen
      simp at hlen
      omega
    obtain ⟨t', klast, rfl⟩ : ∃ t' klast, t = t' ++ [klast] := by
      rcases List.eq_nil_or_concat t with h | ⟨t', klast, h⟩
      · exact absurd h ht
      · exact ⟨t', klast, by simpa using h⟩
    have hks : a :: (t' ++ [klast]) = (a :: t') ++ [klast] := by simp
    rw [hks]
    have hlen' : t'.length + 2 = N + 1 := by simpa using hlen
    have hnd1 : (a :: t').Nodup := by
      refine hnd.sublist ?_
      exact List.Sublist.cons₂ a (List.sublist_append_left t' [klast])
    have hsplit : URLCache.runOps (((a :: t') ++ [klast]).map fun k => CacheOp.set k v)
        (URLCache.empty N) =
        ((URLCache.runOps ((a :: t').map fun k => CacheOp.set k v) (URLCache.empty N)).set
          klast v) := by
      simp [URLCache.runOps, URLCache.step]
    rw [hsplit]
    have hentries : (URLCache.runOps ((a :: t').map fun k => CacheOp.set k v)
        (URLCache.empty N)).entries = ((a :: t').map fun k => (k, v)).reverse ++ [] := by
      refine runOps_set_fresh v (a :: t') (URLCache.empty N) ?_ hnd1 ?_
      · intro k _
        rfl
      · simp [URLCache.empty]
        omega
    rw [List.append_nil] at hentries
    have hmax : (URLCache.runOps ((a :: t').map fun k => CacheOp.set k v)
        (URLCache.empty N)).maxsize = N := by
      rw [maxsize_runOps]
      rfl
    have hwf1 : cacheWF (URLCache.runOps ((a :: t').map fun k => CacheOp.set k v)
        (URLCache.empty N)) :=
      cacheWF_runOps _ _ (cacheWF_empty N hN)
    have hklast : klast ∉ (a :: t') := by
      rcases List.nodup_cons.mp hnd with ⟨hna, hnt⟩
      intro hm
      rcases List.mem_cons.mp hm with he | hm'
      · exact hna (by simp [he])
      · rw [List.nodup_append] at hnt
        exact hnt.2.2 hm' (by simp)
    have hfindlast : assocFind klast (URLCache.runOps ((a :: t').map fun k => CacheOp.set k v)
        (URLCache.empty N)).entries = none := by
      rw [assocFind_eq_none_iff, hentries]
      intro hm
      apply hklast
      simp only [List.map_reverse, List.map_map] at hm
      rw [List.mem_reverse] at hm
      simpa using hm
    have hrev : ((a :: t').map fun k => (k, v)).reverse =
        ((t'.map fun k => (k, v)).reverse) ++ [(a, v)] := by
      simp
    have hcap1 : (URLCache.runOps ((a :: t').map fun k => CacheOp.set k v)
        (URLCache.empty N)).entries.length =
        (URLCache.runOps ((a :: t').map fun k => CacheOp.set k v)
          (URLCache.empty N)).maxsize := by
      rw [hentries, hmax]
      simp
      omega
    have := set_evicts_lru _ klast v ((t'.map fun k => (k, v)).reverse) (a, v) hwf1
      (by rw [hentries, hrev]) hfindlast hcap1
    exact this.1

/-- Claim C2: for every sequence of `Get`/`Set` operations on a cache of
capacity `N` (`N ≥ 1`; `cachetools` rejects writes at capacity 0),
`size()` never exceeds `N`; inserting a new key at capacity evicts the
least-recently-used entry (the last of the recency list) while keeping
the new key and the size at `N`; recency is refreshed on both read and
write access (the touched key moves to the most-recently-used front);
and after inserting `N + 1` distinct keys from empty, the
least-recently-accessed (first) one is absent. -/
theorem c2_bounded_lru_cache (N : Nat) (hN : 1 ≤ N) :
    (∀ ops : List CacheOp, (URLCache.runOps ops (URLCache.empty N)).size ≤ N)
    ∧ (∀ (c : URLCache) (k : String) (v : Option String)
        (es : List (String × Option String)) (e : String × Option String),
        cacheWF c → c.maxsize = N → c.entries = es ++ [e] →
        assocFind k c.entries = none → c.entries.length = N →
        (c.set k v).contains e.1 = false ∧ (c.set k v).contains k = true ∧
          (c.set k v).size = N)
    ∧ (∀ (c : URLCache) (k : String) (v : Option String),
        assocFind k c.entries = some v → ((c.get k).2).entries.head? = some (k, v))
    ∧ (∀ (c : URLCache) (k : String) (v : Option String),
        (c.set k v).entries.head? = some (k, v))
    ∧ (∀ (ks : List String) (v : Option String) (k0 : String),
        ks.Nodup → ks.length = N + 1 → ks.head? = some k0 →
        (URLCache.runOps (ks.map fun k => CacheOp.set k v) (URLCache.empty N)).contains k0
          = false) := by
  refine ⟨?_, ?_, ?_, ?_, ?_⟩
  · intro ops
    have hwf := cacheWF_runOps ops (URLCache.empty N) (cacheWF_empty N hN)
    have hmax : (URLCache.runOps ops (URLCache.empty N)).maxsize = N := by
      rw [maxsize_runOps]
      rfl
    have h2 := hwf.2.1
    rw [hmax] at h2
    exact h2
  · intro c k v es e hwf hmax hes hfind hlen
    have h := set_evicts_lru c k v es e hwf hes hfind (by rw [hlen, hmax])
    rw [hmax] at h
    exact h
  · intro c k v h
    exact get_head c k v h
  · intro c k v
    exact set_head c k v
  · intro ks v k0 hnd hlen h0
    exact insert_succ_evicts N hN ks v hnd hlen k0 h0

/-- Witness for C2 at capacity 2: a concrete operation sequence keeps
the size within 2, and inserting the three distinct keys a, b, c leaves
the first key absent. -/
theorem c2_bounded_lru_cache_witness :
    (URLCache.runOps [CacheOp.set "a" (some "u"), CacheOp.set "b" (some "v"),
      CacheOp.get "a", CacheOp.set "c" (some "w")] (URLCache.empty 2)).size ≤ 2
    ∧ (URLCache.runOps (["a", "b", "c"].map fun k => CacheOp.set k (some "u"))
        (URLCache.empty 2)).contains "a" = false :=
  ⟨(c2_bounded_lru_cache 2 (by decide)).1 _,
    (c2_bounded_lru_cache 2 (by decide)).2.2.2.2 ["a", "b", "c"] (some "u") "a"
      (by decide) (by decide) (by decide)⟩

/-! ### Lookup-coordinator lemmas -/

theorem get_original_url_sentinel (cache : URLCache) (store : Store) (code : String)
    (h : assocFind code cache.entries = some (some NOT_FOUND)) :
    (get_original_url cache store code).1 = none
    ∧ (get_original_url cache store code).2.2 = 0
    ∧ assocFind code (get_original_url cache store code).2.1.entries
        = some (some NOT_FOUND) := by
  simp [get_original_url, URLCache.get, h, assocFind]

theorem resolve_iter_sentinel (store : Store) (code : String) (n : Nat) (cache : URLCache)
    (h : assocFind code cache.entries = some (some NOT_FOUND)) :
    (resolve_iter cache store code n).1 = none
    ∧ (resolve_iter cache store code n).2.2 = 0 := by
  induction n generalizing cache with
  | zero => exact ⟨rfl, rfl⟩
  | succ n ih =>
    obtain ⟨h1, h2, h3⟩ := get_original_url_sentinel cache store code h
    obtain ⟨ih1, ih2⟩ := ih (get_original_url cache store code).2.1 h3
    unfold resolve_iter
    refine ⟨?_, ?_⟩
    · by_cases hn : n = 0 <;> simp [hn, h1, ih1]
    · simp [h2, ih2]

theorem get_original_url_miss_entries (cache : URLCache) (store : Store) (code : String)
    (h : assocFind code cache.entries = none) :
    get_original_url cache store code =
      match assocFind code store with
      | some url => (some url,
          ({ cache with misses := cache.misses + 1 } : URLCache).set code (some url), 1)
      | none => (none,
          ({ cache with misses := cache.misses + 1 } : URLCache).set code (some NOT_FOUND), 1)
        := by
  simp [get_original_url, URLCache.get, h]

/-- Claim C1: `get_original_url` is cache-then-store with negative
caching.  A cached `"__NOT_FOUND__"` sentinel reports not-found with no
database query; a cached real value is returned with no database query;
a cache miss performs exactly one database query and caches the found
URL, or the sentinel when the row is absent; consequently, resolving an
absent code any number of times from a cold cache performs exactly one
database query in total and always reports not-found. -/
theorem c1_resolve_negative_caching :
    (∀ (cache : URLCache) (store : Store) (code : String),
      assocFind code cache.entries = some (some NOT_FOUND) →
      (get_original_url cache store code).1 = none
      ∧ (get_original_url cache store code).2.2 = 0)
    ∧ (∀ (cache : URLCache) (store : Store) (code u : String),
      assocFind code cache.entries = some (some u) → u ≠ NOT_FOUND →
      (get_original_url cache store code).1 = some u
      ∧ (get_original_url cache store code).2.2 = 0)
    ∧ (∀ (cache : URLCache) (store : Store) (code url : String),
      assocFind code cache.entries = none → assocFind code store = some url →
      (get_original_url cache store code).1 = some url
      ∧ (get_original_url cache store code).2.2 = 1
      ∧ assocFind code (get_original_url cache store code).2.1.entries = some (some url))
    ∧ (∀ (cache : URLCache) (store : Store) (code : String),
      assocFind code cache.entries = none → assocFind code store = none →
      (get_original_url cache store code).1 = none
      ∧ (get_original_url cache store code).2.2 = 1
      ∧ assocFind code (get_original_url cache store code).2.1.entries
          = some (some NOT_FOUND))
    ∧ (∀ (cache : URLCache) (store : Store) (code : String) (n : Nat),
      assocFind code cache.entries = none → assocFind code store = none →
      (resolve_iter cache store code (n + 1)).1 = none
      ∧ (resolve_iter cache store code (n + 1)).2.2 = 1) := by
  have hmiss_abs : ∀ (cache : URLCache) (store : Store) (code : String),
      assocFind code cache.entries = none → assocFind code store = none →
      (get_original_url cache store code).1 = none
      ∧ (get_original_url cache store code).2.2 = 1
      ∧ assocFind code (get_original_url cache store code).2.1.entries
          = some (some NOT_FOUND) := by
    intro cache store code hc hs
    rw [get_original_url_miss_entries cache store code hc, hs]
    exact ⟨rfl, rfl, assocFind_set_self _ _ _⟩
  refine ⟨?_, ?_, ?_, hmiss_abs, ?_⟩
  · intro cache store code h
    obtain ⟨h1, h2, _⟩ := get_original_url_sentinel cache store code h
    exact ⟨h1, h2⟩
  · intro cache store code u h hu
    simp [get_original_url, URLCache.get, h, hu]
  · intro cache store code url hc hs
    rw [get_original_url_miss_entries cache store code hc, hs]
    exact ⟨rfl, rfl, assocFind_set_self _ _ _⟩
  · intro cache store code n hc hs
    obtain ⟨h1, h2, h3⟩ := hmiss_abs cache store code hc hs
    obtain ⟨hr1, hr2⟩ := resolve_iter_sentinel store code n _ h3
    unfold resolve_iter
    refine ⟨?_, ?_⟩
    · by_cases hn : n = 0 <;> simp [hn, h1, hr1]
    · simp [h2, hr2]

/-- Witness for C1: resolving the absent code "ghost" twice from a cold
cache reports not-found and performs one database query in total. -/
theorem c1_resolve_negative_caching_witness :
    (resolve_iter (URLCache.empty 1000) [] "ghost" 2).1 = none
    ∧ (resolve_iter (URLCache.empty 1000) [] "ghost" 2).2.2 = 1 :=
  c1_resolve_negative_caching.2.2.2.2 (URLCache.empty 1000) [] "ghost" 1 rfl rfl

/-- Claim C10: a stored row whose URL is the literal string
`"__NOT_FOUND__"` makes two successive resolves disagree: the first
returns that URL (and caches it), while every subsequent resolve of the
same code reports not-found with no further database query — the
negative-cache sentinel lives inside the URL value space. -/
theorem c10_sentinel_inside_url_space :
    (get_original_url (URLCache.empty 1000) [("abc", "__NOT_FOUND__")] "abc").1
      = some "__NOT_FOUND__"
    ∧ (get_original_url (URLCache.empty 1000) [("abc", "__NOT_FOUND__")] "abc").2.2 = 1
    ∧ (∀ n : Nat,
      (resolve_iter
          ((get_original_url (URLCache.empty 1000) [("abc", "__NOT_FOUND__")] "abc").2.1)
          [("abc", "__NOT_FOUND__")] "abc" (n + 1)).1 = none
      ∧ (resolve_iter
          ((get_original_url (URLCache.empty 1000) [("abc", "__NOT_FOUND__")] "abc").2.1)
          [("abc", "__NOT_FOUND__")] "abc" (n + 1)).2.2 = 0) := by
  refine ⟨by decide, by decide, ?_⟩
  intro n
  exact resolve_iter_sentinel _ _ _ _ (by decide)

/-- Claim C5: committing a new mapping invalidates any
cache entry for the code — including a cached `"__NOT_FOUND__"`
sentinel — so the next resolve returns the newly stored URL. -/
theorem c5_record_creation_invalidates (cache : URLCache) (store : Store)
    (code url : String) (h : assocFind code store = none) :
    shorten_commit cache store code url
        = some (cache.invalidate code, (code, url) :: store)
    ∧ (cache.invalidate code).contains code = false
    ∧ (get_original_url (cache.invalidate code) ((code, url) :: store) code).1 = some url := by
  refine ⟨?_, ?_, ?_⟩
  · simp [shorten_commit, h]
  · simp [URLCache.contains, URLCache.invalidate, assocFind_assocErase_self]
  · have hinv : assocFind code (cache.invalidate code).entries = none := by
      simp [URLCache.invalidate, assocFind_assocErase_self]
    rw [get_original_url_miss_entries _ _ _ hinv]
    simp [assocFind]

/-- Witness for C5: a cache holding the negative sentinel for "ghost";
after the commit, resolving "ghost" yields the new URL. -/
theorem c5_record_creation_invalidates_witness :
    shorten_commit ((URLCache.empty 5).set "ghost" (some NOT_FOUND)) [] "ghost" "http://new"
        = some ((((URLCache.empty 5).set "ghost" (some NOT_FOUND))).invalidate "ghost",
            [("ghost", "http://new")])
    ∧ ((((URLCache.empty 5).set "ghost" (some NOT_FOUND))).invalidate "ghost").contains "ghost"
        = false
    ∧ (get_original_url ((((URLCache.empty 5).set "ghost" (some NOT_FOUND))).invalidate "ghost")
        [("ghost", "http://new")] "ghost").1 = some "http://new" :=
  c5_record_creation_invalidates ((URLCache.empty 5).set "ghost" (some NOT_FOUND)) []
    "ghost" "http://new" rfl

/-- Counterexample to C4: a state whose cache holds "abc" while the
store has no row for it.  The cache-first resolution the claim
prescribes (and which the info path actually performs) returns the
cached URL with no database query, but the redirect path reports
not-found and performs a database query: the redirect endpoint does not
consult the cache. -/
theorem c4_counterexample :
    (redirect_resolve ((URLCache.empty 10).set "abc" (some "http://cached.example"))
        [] "abc").1 = none
    ∧ (redirect_resolve ((URLCache.empty 10).set "abc" (some "http://cached.example"))
        [] "abc").2.2 = 1
    ∧ (get_original_url ((URLCache.empty 10).set "abc" (some "http://cached.example"))
        [] "abc").1 = some "http://cached.example"
    ∧ (get_original_url ((URLCache.empty 10).set "abc" (some "http://cached.example"))
        [] "abc").2.2 = 0 := by
  decide

/-- Claim C4 as amended: the info path resolves through
`get_original_url`, consulting the cache first (a string-valued cache
hit answers with no database query; a miss performs one query and
populates the cache with the found URL or the `"__NOT_FOUND__"`
marker), while the redirect path ignores the cache entirely: its
outcome is independent of the cache contents, it leaves the cache
unchanged, and it queries the store on every request. -/
theorem c4_lookup_paths :
    (∀ (cache cache' : URLCache) (store : Store) (code : String),
      (redirect_resolve cache store code).1 = (redirect_resolve cache' store code).1)
    ∧ (∀ (cache : URLCache) (store : Store) (code : String),
      (redirect_resolve cache store code).2.1 = cache
      ∧ (redirect_resolve cache store code).2.2 = 1)
    ∧ (∀ (cache : URLCache) (store : Store) (code u : String),
      assocFind code cache.entries = some (some u) →
      (get_original_url cache store code).2.2 = 0)
    ∧ (∀ (cache : URLCache) (store : Store) (code : String),
      assocFind code cache.entries = none →
      (get_original_url cache store code).2.2 = 1
      ∧ assocFind code ((get_original_url cache store code).2.1).entries
          = some (some ((assocFind code store).getD NOT_FOUND))) := by
  refine ⟨fun _ _ _ _ => rfl, fun _ _ _ => ⟨rfl, rfl⟩, ?_, ?_⟩
  · intro cache store code u h
    simp [get_original_url, URLCache.get, h]
  · intro cache store code h
    rw [get_original_url_miss_entries _ _ _ h]
    cases hs : assocFind code store with
    | some url => exact ⟨rfl, by rw [assocFind_set_self]; rfl⟩
    | none => exact ⟨rfl, by rw [assocFind_set_self]; rfl⟩

/-- Witness for C4 (amended): a concrete cache hit on the info path
performs no database query; a concrete miss performs one and caches the
negative marker. -/
theorem c4_lookup_paths_witness :
    (get_original_url ((URLCache.empty 10).set "abc" (some "http://x.example"))
        [] "abc").2.2 = 0
    ∧ ((get_original_url (URLCache.empty 10) [] "nope").2.2 = 1
      ∧ assocFind "nope" ((get_original_url (URLCache.empty 10) [] "nope").2.1).entries
          = some (some ((assocFind "nope" ([] : Store)).getD NOT_FOUND))) :=
  ⟨c4_lookup_paths.2.2.1 ((URLCache.empty 10).set "abc" (some "http://x.example"))
      [] "abc" "http://x.example" rfl,
    c4_lookup_paths.2.2.2 (URLCache.empty 10) [] "nope" rfl⟩

/-- Counterexample to C6: `URLCache.get` does not return a separate
found flag.  A key cached with value `None` is present (membership is
true and the read is counted as a hit) yet `get` returns the same
`none` an absent key yields: absence is not distinguishable from every
cached value. -/
theorem c6_counterexample :
    (((URLCache.empty 10).set "k" none).get "k").1 = none
    ∧ ((URLCache.empty 10).set "k" none).contains "k" = true
    ∧ (((URLCache.empty 10).set "k" none).get "k").2.hits = 1
    ∧ ((URLCache.empty 10).get "k").1 = none
    ∧ (URLCache.empty 10).contains "k" = false := by
  decide

/-- Claim C6 as amended: cache operations are total and never raise;
`get` signals in-band — it returns the stored value on a present key
(counting a hit) and `none` on an absent key (counting a miss), so a
cached string value, the `"__NOT_FOUND__"` sentinel included, is
distinguishable from absence; but a key cached with value `None` also
yields `none`, indistinguishable from a missing key. -/
theorem c6_get_signaling :
    (∀ (c : URLCache) (k : String), c.contains k = false →
      (c.get k).1 = none ∧ (c.get k).2.misses = c.misses + 1)
    ∧ (∀ (c : URLCache) (k s : String), assocFind k c.entries = some (some s) →
      (c.get k).1 = some s ∧ (c.get k).2.hits = c.hits + 1)
    ∧ (∀ (c : URLCache) (k : String),
      ((c.set k (some NOT_FOUND)).get k).1 = some NOT_FOUND)
    ∧ (∀ (c : URLCache) (k : String), ((c.set k none).get k).1 = none) := by
  refine ⟨?_, ?_, ?_, ?_⟩
  · intro c k h
    have hf : assocFind k c.entries = none := by
      rcases hx : assocFind k c.entries with _ | v
      · rfl
      · rw [URLCache.contains, hx] at h
        simp at h
    simp [URLCache.get, hf]
  · intro c k s h
    simp [URLCache.get, h]
  · intro c k
    simp [URLCache.get, assocFind_set_self]
  · intro c k
    simp [URLCache.get, assocFind_set_self]

/-- Witness for C6 (amended): concrete instances of the miss path and
of a cached real URL being returned with a hit count. -/
theorem c6_get_signaling_witness :
    ((URLCache.empty 4).get "k").1 = none
    ∧ ((URLCache.empty 4).get "k").2.misses = (URLCache.empty 4).misses + 1
    ∧ (((URLCache.empty 4).set "p" (some "http://u")).get "p").1 = some "http://u"
    ∧ (((URLCache.empty 4).set "p" (some "http://u")).get "p").2.hits
        = ((URLCache.empty 4).set "p" (some "http://u")).hits + 1 := by
  obtain ⟨h1, h2⟩ := c6_get_signaling.1 (URLCache.empty 4) "k" rfl
  obtain ⟨h3, h4⟩ := c6_get_signaling.2.1 ((URLCache.empty 4).set "p" (some "http://u"))
    "p" "http://u" rfl
  exact ⟨h1, h2, h3, h4⟩

/-! ### Rate-limiter lemmas -/

theorem length_filter_lt_of_mem_not {α : Type} (l : List α) (p : α → Bool) (x : α)
    (hx : x ∈ l) (hpx : p x = false) : (l.filter p).length < l.length := by
  induction l with
  | nil => cases hx
  | cons a t ih =>
    rcases List.mem_cons.mp hx with rfl | hx'
    · rw [List.filter_cons, hpx]
      simp only [List.length_cons]
      exact Nat.lt_succ_of_le (t.length_filter_le p)
    · rw [List.filter_cons]
      by_cases hpa : p a = true
      · simp only [hpa, if_true, List.length_cons]
        exact Nat.succ_lt_succ (ih hx')
      · simp only [hpa, if_false, List.length_cons]
        exact Nat.lt_succ_of_lt (ih hx')

theorem check_rate_limit_allows (limit window : Nat) (now : ℚ) (times : List ℚ)
    (h : ¬ limit ≤ (times.filter fun t => now - t < (window : ℚ)).length) :
    check_rate_limit limit window now times
      = ((true, none), (times.filter fun t => now - t < (window : ℚ)) ++ [now]) := by
  simp only [check_rate_limit]
  rw [if_neg h]

theorem check_rate_limit_reject (limit window : Nat) (now : ℚ) (times : List ℚ)
    (oldest : ℚ) (rest : List ℚ)
    (hk : (times.filter fun t => now - t < (window : ℚ)) = oldest :: rest)
    (h : limit ≤ rest.length + 1) :
    check_rate_limit limit window now times
      = ((false, some (⌊(window : ℚ) - (now - oldest)⌋ + 1)), oldest :: rest) := by
  simp only [check_rate_limit, hk]
  rw [if_pos (by simpa using h)]

/-- Claim C3 as amended: each check first drops the client timestamps
whose age is at least `window` (it keeps exactly the `t` with
`now - t < window`), appending `now` exactly when it admits; with
`limit ≥ 1`, it rejects exactly when at least `limit` timestamps
remain; a rejection reports
`retryAfterSeconds = ⌊window - (now - oldestRemaining)⌋ + 1 ≥ 1`,
where `oldestRemaining` is the head of the retained list — the minimum
when the list is sorted — and this value overshoots the exact residual,
so a retry exactly at the computed instant is admitted; in particular,
with `limit = 3`, three checks inside the window are all admitted, a
fourth is rejected with a positive retry-after, and a check after the
window has passed is admitted again. -/
theorem c3_sliding_window_limiter :
    (∀ (limit window : Nat) (now : ℚ) (times : List ℚ),
      (check_rate_limit limit window now times).2
        = (times.filter fun t => now - t < (window : ℚ))
          ++ (if (check_rate_limit limit window now times).1.1 then [now] else []))
    ∧ (∀ (limit window : Nat) (now : ℚ) (times : List ℚ), 1 ≤ limit →
      ((check_rate_limit limit window now times).1.1 = false ↔
        limit ≤ (times.filter fun t => now - t < (window : ℚ)).length))
    ∧ (∀ (limit window : Nat) (now : ℚ) (times : List ℚ), 1 ≤ limit →
      limit ≤ (times.filter fun t => now - t < (window : ℚ)).length →
      ∃ oldest rest, (times.filter fun t => now - t < (window : ℚ)) = oldest :: rest
        ∧ (check_rate_limit limit window now times).1
            = (false, some (⌊(window : ℚ) - (now - oldest)⌋ + 1))
        ∧ 1 ≤ ⌊(window : ℚ) - (now - oldest)⌋ + 1)
    ∧ (∀ (limit window : Nat) (now : ℚ) (times : List ℚ) (oldest : ℚ),
      times.Sorted (· ≤ ·) →
      (times.filter fun t => now - t < (window : ℚ)).head? = some oldest →
      ∀ t ∈ times.filter fun t => now - t < (window : ℚ), oldest ≤ t)
    ∧ (∀ (limit window : Nat) (now : ℚ) (times : List ℚ) (r : ℤ), 1 ≤ limit →
      (times.filter fun t => now - t < (window : ℚ)).length = limit →
      (check_rate_limit limit window now times).1.2 = some r →
      (check_rate_limit limit window (now + (r : ℚ))
        (check_rate_limit limit window now times).2).1.1 = true)
    ∧ (∀ t1 t2 t3 t4 t5 : ℚ, t1 ≤ t2 → t2 ≤ t3 → t3 ≤ t4 → t4 - t1 < 60 →
      60 ≤ t5 - t3 →
      ((check_rate_limit 3 60 t1 []).1.1 = true ∧ (check_rate_limit 3 60 t1 []).2 = [t1])
      ∧ ((check_rate_limit 3 60 t2 [t1]).1.1 = true
        ∧ (check_rate_limit 3 60 t2 [t1]).2 = [t1, t2])
      ∧ ((check_rate_limit 3 60 t3 [t1, t2]).1.1 = true
        ∧ (check_rate_limit 3 60 t3 [t1, t2]).2 = [t1, t2, t3])
      ∧ ((check_rate_limit 3 60 t4 [t1, t2, t3]).1.1 = false
        ∧ ∃ r : ℤ, (check_rate_limit 3 60 t4 [t1, t2, t3]).1.2 = some r ∧ 1 ≤ r)
      ∧ (check_rate_limit 3 60 t5 [t1, t2, t3]).1.1 = true) := by
  have hnil : ∀ (limit window : Nat) (now : ℚ) (times : List ℚ),
      (times.filter fun t => now - t < (window : ℚ)) = [] → limit = 0 →
      check_rate_limit limit window now times = ((false, none), []) := by
    intro limit window now times hk h0
    simp only [check_rate_limit, hk]
    rw [if_pos (by omega)]
  have hlist : ∀ (limit window : Nat) (now : ℚ) (times : List ℚ),
      (check_rate_limit limit window now times).2
        = (times.filter fun t => now - t < (window : ℚ))
          ++ (if (check_rate_limit limit window now times).1.1 then [now] else []) := by
    intro limit window now times
    by_cases h : limit ≤ (times.filter fun t => now - t < (window : ℚ)).length
    · cases hk : times.filter fun t => now - t < (window : ℚ) with
      | nil =>
        have h0 : limit = 0 := by
          rw [hk] at h
          simpa using h
        rw [hnil limit window now times hk h0]
        simp
      | cons o rest =>
        have h' : limit ≤ rest.length + 1 := by
          rw [hk] at h
          simpa using h
        rw [check_rate_limit_reject limit window now times o rest hk h']
        simp
    · rw [check_rate_limit_allows limit window now times h]
      simp
  have hrejiff : ∀ (limit window : Nat) (now : ℚ) (times : List ℚ), 1 ≤ limit →
      ((check_rate_limit limit window now times).1.1 = false ↔
        limit ≤ (times.filter fun t => now - t < (window : ℚ)).length) := by
    intro limit window now times hlim
    by_cases h : limit ≤ (times.filter fun t => now - t < (window : ℚ)).length
    · cases hk : times.filter fun t => now - t < (window : ℚ) with
      | nil =>
        rw [hk] at h
        simp at h
        exact absurd hlim (by omega)
      | cons o rest =>
        have h' : limit ≤ rest.length + 1 := by
          rw [hk] at h
          simpa using h
        rw [check_rate_limit_reject limit window now times o rest hk h']
        exact iff_of_true rfl (by simpa using h')
    · rw [check_rate_limit_allows limit window now times h]
      exact iff_of_false (by simp) h
  have hformula : ∀ (limit window : Nat) (now : ℚ) (times : List ℚ), 1 ≤ limit →
      limit ≤ (times.filter fun t => now - t < (window : ℚ)).length →
      ∃ oldest rest, (times.filter fun t => now - t < (window : ℚ)) = oldest :: rest
        ∧ (check_rate_limit limit window now times).1
            = (false, some (⌊(window : ℚ) - (now - oldest)⌋ + 1))
        ∧ 1 ≤ ⌊(window : ℚ) - (now - oldest)⌋ + 1 := by
    intro limit window now times hlim h
    cases hk : times.filter fun t => now - t < (window : ℚ) with
    | nil =>
      rw [hk] at h
      simp at h
      exact absurd hlim (by omega)
    | cons oldest rest =>
      have h' : limit ≤ rest.length + 1 := by
        rw [hk] at h
        simpa using h
      refine ⟨oldest, rest, rfl, ?_, ?_⟩
      · rw [check_rate_limit_reject limit window now times oldest rest hk h']
      · have hmem : oldest ∈ times.filter fun t => now - t < (window : ℚ) := by
          rw [hk]
          exact List.mem_cons_self _ _
        have hlt : now - oldest < (window : ℚ) := by
          have := List.of_mem_filter hmem
          exact of_decide_eq_true this
        have hnn : (0 : ℚ) ≤ (window : ℚ) - (now - oldest) := by linarith
        have := Int.floor_nonneg.mpr hnn
        omega
  refine ⟨hlist, hrejiff, hformula, ?_, ?_, ?_⟩
  · intro limit window now times oldest hsort hhead t ht
    have hsf : (times.filter fun t => now - t < (window : ℚ)).Sorted (· ≤ ·) :=
      hsort.filter _
    cases hk : times.filter fun t => now - t < (window : ℚ) with
    | nil =>
      rw [hk] at ht
      cases ht
    | cons o rest =>
      rw [hk] at hhead
      have ho : o = oldest := by simpa using hhead
      subst ho
      rw [hk] at hsf ht
      rcases List.mem_cons.mp ht with rfl | ht'
      · exact le_refl _
      · exact (List.sorted_cons.mp hsf).1 t ht'
  · intro limit window now times r hlim hlen hsome
    obtain ⟨oldest, rest, hk, hpair, _⟩ :=
      hformula limit window now times hlim (Nat.le_of_eq hlen.symm)
    have h' : limit ≤ rest.length + 1 := by
      have h := Nat.le_of_eq hlen.symm
      rw [hk] at h
      simpa using h
    have hcheck := check_rate_limit_reject limit window now times oldest rest hk h'
    have hr : r = ⌊(window : ℚ) - (now - oldest)⌋ + 1 := by
      rw [hcheck] at hsome
      simp at hsome
      exact hsome.symm
    have hstate : (check_rate_limit limit window now times).2 = oldest :: rest := by
      rw [hcheck]
    rw [hstate]
    have hover : (window : ℚ) - (now - oldest) < (r : ℚ) := by
      rw [hr]
      push_cast
      exact Int.lt_floor_add_one _
    have hdrop : (decide (now + (r : ℚ) - oldest < (window : ℚ))) = false := by
      rw [decide_eq_false_iff_not]
      intro hcon
      linarith
    have hlt : ((oldest :: rest).filter fun t => now + (r : ℚ) - t < (window : ℚ)).length
        < (oldest :: rest).length :=
      length_filter_lt_of_mem_not _ _ oldest (List.mem_cons_self _ _) hdrop
    have hlen2 : (oldest :: rest).length = limit := by
      rw [← hk]
      exact hlen
    rw [check_rate_limit_allows limit window (now + (r : ℚ)) (oldest :: rest)
      (by rw [hlen2] at hlt; omega)]
  · intro t1 t2 t3 t4 t5 h12 h23 h34 hwin hpast
    have f2 : List.filter (fun t => t2 - t < ((60 : Nat) : ℚ)) [t1] = [t1] := by
      rw [List.filter_cons,
        if_pos (decide_eq_true (show t2 - t1 < ((60 : Nat) : ℚ) by push_cast; linarith)),
        List.filter_nil]
    have f3 : List.filter (fun t => t3 - t < ((60 : Nat) : ℚ)) [t1, t2] = [t1, t2] := by
      rw [List.filter_cons,
        if_pos (decide_eq_true (show t3 - t1 < ((60 : Nat) : ℚ) by push_cast; linarith)),
        List.filter_cons,
        if_pos (decide_eq_true (show t3 - t2 < ((60 : Nat) : ℚ) by push_cast; linarith)),
        List.filter_nil]
    have f4 : List.filter (fun t => t4 - t < ((60 : Nat) : ℚ)) [t1, t2, t3]
        = [t1, t2, t3] := by
      rw [List.filter_cons,
        if_pos (decide_eq_true (show t4 - t1 < ((60 : Nat) : ℚ) by push_cast; linarith)),
        List.filter_cons,
        if_pos (decide_eq_true (show t4 - t2 < ((60 : Nat) : ℚ) by push_cast; linarith)),
        List.filter_cons,
        if_pos (decide_eq_true (show t4 - t3 < ((60 : Nat) : ℚ) by push_cast; linarith)),
        List.filter_nil]
    have f5 : List.filter (fun t => t5 - t < ((60 : Nat) : ℚ)) [t1, t2, t3] = [] := by
      rw [List.filter_cons,
        if_neg (by
          rw [decide_eq_true_eq]
          intro hcon
          push_cast at hcon
          linarith),
        List.filter_cons,
        if_neg (by
          rw [decide_eq_true_eq]
          intro hcon
          push_cast at hcon
          linarith),
        List.filter_cons,
        if_neg (by
          rw [decide_eq_true_eq]
          intro hcon
          push_cast at hcon
          linarith),
        List.filter_nil]
    refine ⟨?_, ?_, ?_, ⟨?_, ?_⟩, ?_⟩
    · rw [check_rate_limit_allows 3 60 t1 [] (by simp)]
      exact ⟨rfl, rfl⟩
    · rw [check_rate_limit_allows 3 60 t2 [t1] (by rw [f2]; norm_num)]
      refine ⟨rfl, ?_⟩
      rw [f2]
      simp
    · rw [check_rate_limit_allows 3 60 t3 [t1, t2] (by rw [f3]; norm_num)]
      refine ⟨rfl, ?_⟩
      rw [f3]
      simp
    · rw [check_rate_limit_reject 3 60 t4 [t1, t2, t3] t1 [t2, t3] f4 (by norm_num)]
    · rw [check_rate_limit_reject 3 60 t4 [t1, t2, t3] t1 [t2, t3] f4 (by norm_num)]
      refine ⟨⌊((60 : Nat) : ℚ) - (t4 - t1)⌋ + 1, rfl, ?_⟩
      have hnn : (0 : ℚ) ≤ ((60 : Nat) : ℚ) - (t4 - t1) := by push_cast; linarith
      have := Int.floor_nonneg.mpr hnn
      omega
    · rw [check_rate_limit_allows 3 60 t5 [t1, t2, t3] (by rw [f5]; norm_num)]

/-- Witness for C3 (amended): the concrete burst 0, 0, 1, 1 against
limit 3 / window 60, with a final check at time 61. -/
theorem c3_sliding_window_limiter_witness :
    ((check_rate_limit 3 60 0 []).1.1 = true ∧ (check_rate_limit 3 60 0 []).2 = [0])
    ∧ ((check_rate_limit 3 60 0 [0]).1.1 = true
      ∧ (check_rate_limit 3 60 0 [0]).2 = [0, 0])
    ∧ ((check_rate_limit 3 60 1 [0, 0]).1.1 = true
      ∧ (check_rate_limit 3 60 1 [0, 0]).2 = [0, 0, 1])
    ∧ ((check_rate_limit 3 60 1 [0, 0, 1]).1.1 = false
      ∧ ∃ r : ℤ, (check_rate_limit 3 60 1 [0, 0, 1]).1.2 = some r ∧ 1 ≤ r)
    ∧ (check_rate_limit 3 60 61 [0, 0, 1]).1.1 = true :=
  c3_sliding_window_limiter.2.2.2.2.2 0 0 1 1 61 (by norm_num) (by norm_num)
    (by norm_num) (by norm_num) (by norm_num)

/-- Counterexample to C3 as stated.  First: a timestamp aged exactly
`window` is dropped by the code (`now - t < window` fails at equality)
although it is not "older than `now - windowSeconds`", so where the
claim predicts a fourth burst request is still rejected at `now = 60`
against timestamps `[0, 0, 0]`, the code admits it.  Second: the
reported retry-after is the truncated `int(window - (now - oldest)) + 1`,
not the claim's exact `window - (now - oldest) + 1`: at `now = 1/2`
with one timestamp `0` and limit 1, the code reports 60 while the
claim's formula yields 121/2. -/
theorem c3_counterexample :
    (check_rate_limit 3 60 60 [0, 0, 0]).1.1 = true
    ∧ (check_rate_limit_claim 3 60 60 [0, 0, 0]).1.1 = false
    ∧ (check_rate_limit 1 60 (1/2) [0]).1.2 = some 60
    ∧ ((60 : ℚ) ≠ 60 - ((1/2 : ℚ) - 0) + 1) := by
  refine ⟨?_, ?_, ?_, by norm_num⟩
  · norm_num [check_rate_limit, List.filter]
  · norm_num [check_rate_limit_claim, List.filter]
  · norm_num [check_rate_limit, List.filter]

/-! ### Code-generator lemmas -/

theorem gen_aux_all_collide (draws : Nat → Fin 6 → Fin 62) :
    ∀ (fuel i : Nat), gen_aux (fun _ => true) draws i fuel = none := by
  intro fuel
  induction fuel with
  | zero => intro i; rfl
  | succ n ih =>
    intro i
    simp only [gen_aux, if_true]
    exact ih (i + 1)

theorem gen_aux_spec (ce : String → Bool) (draws : Nat → Fin 6 → Fin 62) :
    ∀ (fuel i : Nat) (c : String), gen_aux ce draws i fuel = some c →
      ce c = false ∧ ∃ m, c = drawCode (draws (i + m))
        ∧ ∀ j, j < m → ce (drawCode (draws (i + j))) = true := by
  intro fuel
  induction fuel with
  | zero =>
    intro i c h
    simp [gen_aux] at h
  | succ n ih =>
    intro i c h
    simp only [gen_aux] at h
    by_cases hc : ce (drawCode (draws i)) = true
    · rw [if_pos hc] at h
      obtain ⟨hfalse, m, hm, hprev⟩ := ih (i + 1) c h
      refine ⟨hfalse, m + 1, ?_, ?_⟩
      · have hidx : i + 1 + m = i + (m + 1) := by omega
        rw [hm, hidx]
      · intro j hj
        cases j with
        | zero => simpa using hc
        | succ j' =>
          have := hprev j' (by omega)
          have hidx : i + 1 + j' = i + (j' + 1) := by omega
          rwa [hidx] at this
    · rw [if_neg hc] at h
      have hcode : drawCode (draws i) = c := by
        injection h
      refine ⟨?_, 0, ?_, fun j hj => absurd hj (Nat.not_lt_zero j)⟩
      · rw [← hcode]
        revert hc
        cases ce (drawCode (draws i)) <;> simp
      · rw [Nat.add_zero]
        exact hcode.symm

theorem drawCode_length (d : Fin 6 → Fin 62) : (drawCode d).length = 6 := by
  show ((List.finRange 6).map fun j => charOf (d j)).length = 6
  simp

theorem charOf_alnum : ∀ i : Fin 62, pyIsAlnumChar (charOf i) = true := by decide

theorem drawCode_alnum (d : Fin 6 → Fin 62) :
    (drawCode d).data.all pyIsAlnumChar = true := by
  show ((List.finRange 6).map fun j => charOf (d j)).all pyIsAlnumChar = true
  rw [List.all_eq_true]
  intro c hc
  obtain ⟨j, _, rfl⟩ := List.mem_map.mp hc
  exact charOf_alnum _

/-- Counterexample to C7: against a store that reports every candidate
as existing, the generator is still looping after 10 001 observed
iterations — no retry count is compared against a budget and no
`KeyspaceExhausted` exit exists in the loop (its embedding can only
return a free code or keep going). -/
theorem c7_counterexample :
    generate_short_code (fun _ => true) (fun _ _ => 0) 10001 = none :=
  gen_aux_all_collide (fun _ _ => 0) 10001 0

/-- Claim C7 as amended: `generate_short_code` tracks no retry count
and imposes no attempt bound: it loops until the store reports a free
code, and against a store where every candidate exists it never
returns, for any number of observed iterations — there is no
`KeyspaceExhausted` (or any other) error path. -/
theorem c7_unbounded_retry_loop (draws : Nat → Fin 6 → Fin 62) (fuel : Nat) :
    generate_short_code (fun _ => true) draws fuel = none :=
  gen_aux_all_collide draws fuel 0

/-- Claim C8: whenever `generate_short_code` returns a code, that code
has length 6, is drawn from the 62-symbol alphanumeric alphabet, and
the store reports it as not existing; it is the first draw that misses
the store, every earlier draw having collided. -/
theorem c8_generate_unique (ce : String → Bool) (draws : Nat → Fin 6 → Fin 62)
    (fuel : Nat) (c : String) (h : generate_short_code ce draws fuel = some c) :
    c.length = 6 ∧ c.data.all pyIsAlnumChar = true ∧ ce c = false
    ∧ ∃ m, c = drawCode (draws m) ∧ ∀ j, j < m → ce (drawCode (draws j)) = true := by
  obtain ⟨hfalse, m, hm, hprev⟩ := gen_aux_spec ce draws fuel 0 c h
  rw [Nat.zero_add] at hm
  refine ⟨?_, ?_, hfalse, m, hm, ?_⟩
  · rw [hm]
    exact drawCode_length _
  · rw [hm]
    exact drawCode_alnum _
  · intro j hj
    have := hprev j hj
    rwa [Nat.zero_add] at this

/-- Witness for C8: with an empty store every candidate is free, so the
first draw (all zeros, the code "aaaaaa") is returned and satisfies the
format and freshness conclusions. -/
theorem c8_generate_unique_witness :
    ("aaaaaa" : String).length = 6
    ∧ ("aaaaaa" : String).data.all pyIsAlnumChar = true
    ∧ (false : Bool) = false
    ∧ ∃ m : Nat, ("aaaaaa" : String) = drawCode (fun _ => (0 : Fin 62))
        ∧ ∀ j : Nat, j < m → (false : Bool) = true :=
  c8_generate_unique (fun _ => false) (fun _ _ => 0) 1 "aaaaaa" (by decide)

/-! ### Custom-code validator -/

/-- Counterexample to C9: the empty string has length 0, outside 3-20,
yet it is falsy in Python, so `if v:` skips every check and
`validate_custom_code` accepts it unchanged. -/
theorem c9_counterexample :
    validate_custom_code (some "") = Except.ok (some "")
    ∧ ¬ (3 ≤ ("" : String).length ∧ ("" : String).length ≤ 20) :=
  ⟨rfl, by decide⟩

/-- Claim C9 as amended: for every provided non-empty code, the
validator rejects length outside 3-20, rejects any non-alphanumeric
character, and rejects case-insensitive membership in the reserved set
(both "api" and "API"); it accepts "mycode123".  The empty string (and
an absent code) is treated as not provided and passes through
unvalidated. -/
theorem c9_validate_custom_code :
    (∀ s : String, s ≠ "" → (s.length < 3 ∨ 20 < s.length) →
      ∃ e, validate_custom_code (some s) = Except.error e)
    ∧ (∀ s : String, s ≠ "" → s.data.all pyIsAlnumChar = false →
      ∃ e, validate_custom_code (some s) = Except.error e)
    ∧ (∀ s : String, s ≠ "" → pyLower s ∈ reservedWords →
      ∃ e, validate_custom_code (some s) = Except.error e)
    ∧ validate_custom_code (some "mycode123") = Except.ok (some "mycode123")
    ∧ validate_custom_code (some "api") = Except.error "reserved"
    ∧ validate_custom_code (some "API") = Except.error "reserved"
    ∧ validate_custom_code none = Except.ok none
    ∧ validate_custom_code (some "") = Except.ok (some "") := by
  refine ⟨?_, ?_, ?_, rfl, rfl, rfl, rfl, rfl⟩
  · intro s hne hlen
    simp only [validate_custom_code]
    rw [if_neg hne, if_pos hlen]
    exact ⟨_, rfl⟩
  · intro s hne halnum
    simp only [validate_custom_code]
    rw [if_neg hne]
    by_cases h1 : s.length < 3 ∨ 20 < s.length
    · rw [if_pos h1]
      exact ⟨_, rfl⟩
    · rw [if_neg h1, if_pos (by rw [halnum]; simp)]
      exact ⟨_, rfl⟩
  · intro s hne hres
    simp only [validate_custom_code]
    rw [if_neg hne]
    by_cases h1 : s.length < 3 ∨ 20 < s.length
    · rw [if_pos h1]
      exact ⟨_, rfl⟩
    · rw [if_neg h1]
      by_cases h2 : ¬ s.data.all pyIsAlnumChar = true
      · rw [if_pos h2]
        exact ⟨_, rfl⟩
      · rw [if_neg h2, if_pos hres]
        exact ⟨_, rfl⟩

/-- Witness for C9 (amended): "ab" is rejected for length, "my-code"
for a non-alphanumeric character, "API" as case-insensitively
reserved. -/
theorem c9_validate_custom_code_witness :
    (∃ e, validate_custom_code (some "ab") = Except.error e)
    ∧ (∃ e, validate_custom_code (some "my-code") = Except.error e)
    ∧ (∃ e, validate_custom_code (some "API") = Except.error e) :=
  ⟨c9_validate_custom_code.1 "ab" (by decide) (by decide),
    c9_validate_custom_code.2.1 "my-code" (by decide) (by decide),
    c9_validate_custom_code.2.2.1 "API" (by decide) (by decide)⟩
example : (((URLCache.empty 2).set "a" (some "x")).get "a").1 = some "x" := by decide
example :
    (get_original_url (URLCache.empty 4) [("abc", "http://e.com")] "abc").1
      = some "http://e.com" := by decide
example :
    (get_original_url (URLCache.empty 4) [] "abc").2.1.entries
      = [("abc", some NOT_FOUND)] := by decide
example :
    (resolve_iter (URLCache.empty 4) [] "abc" 3).2.2 = 1 := by decide
